import Mathlib

/-! Verification of the core logic of the QR image platform (`app.py`):
the retention sweeper `clean_old_images`, the image optimizer
`optimize_image` with its quality/scale search, the QR wrapper
`create_qr_code`, the persistence helper `save_image_data`, and the
upload sequence of `upload_image`.  Python state is made explicit:
the JSON store is an insertion-ordered association list, the file
system is the list of paths that exist, timestamps are seconds, and a
caught exception is an ordinary return value. -/

namespace QrPlatform

/-- digit value of a character, or `none` when it is not a decimal digit. -/
def digitVal (c : Char) : Option Nat :=
  if c.isDigit then some (c.toNat - 48) else none

/-- two-digit decimal number. -/
def num2 (a b : Char) : Option Nat := do
  let x ← digitVal a
  let y ← digitVal b
  pure (10 * x + y)

/-- four-digit decimal number. -/
def num4 (a b c d : Char) : Option Nat := do
  let x ← num2 a b
  let y ← num2 c d
  pure (100 * x + y)

/-- leap-year test of the proleptic Gregorian calendar, as in Python's
`datetime` module. -/
def isLeap (y : Nat) : Bool :=
  y % 4 == 0 && (y % 100 != 0 || y % 400 == 0)

/-- length of month `m` in year `y`. -/
def daysInMonth (y m : Nat) : Nat :=
  if m = 2 then (if isLeap y then 29 else 28)
  else if m = 4 ∨ m = 6 ∨ m = 9 ∨ m = 11 then 30
  else 31

/-- days contained in the years `1 .. y-1`. -/
def daysBeforeYear (y : Nat) : Nat :=
  365 * (y - 1) + ((y - 1) / 4 + (y - 1) / 400 - (y - 1) / 100)

/-- days contained in the months `1 .. m-1` of year `y`. -/
def daysBeforeMonth (y m : Nat) : Nat :=
  let base : Nat :=
    match m with
    | 1 => 0 | 2 => 31 | 3 => 59 | 4 => 90 | 5 => 120 | 6 => 151
    | 7 => 181 | 8 => 212 | 9 => 243 | 10 => 273 | 11 => 304 | _ => 334
  if 3 ≤ m then (if isLeap y then base + 1 else base) else base

/-- seconds elapsed from 0001-01-01T00:00:00 to the given civil time. -/
def civilSeconds (y mo d h mi s : Nat) : Nat :=
  (((daysBeforeYear y + daysBeforeMonth y mo + (d - 1)) * 24 + h) * 60 + mi) * 60 + s

/-- model of Python's `datetime.fromisoformat`, restricted to the canonical
`YYYY-MM-DDTHH:MM:SS` shape (the shape `datetime.isoformat` writes at whole
seconds, and the shape of every timestamp this application stores); a string
of any other shape is unparseable here, which in the source raises
`ValueError`. -/
def fromisoformat (str : String) : Option Nat :=
  match str.toList with
  | [y1, y2, y3, y4, '-', m1, m2, '-', d1, d2, 'T',
     h1, h2, ':', n1, n2, ':', s1, s2] => do
    let y ← num4 y1 y2 y3 y4
    let mo ← num2 m1 m2
    let d ← num2 d1 d2
    let h ← num2 h1 h2
    let mi ← num2 n1 n2
    let s ← num2 s1 s2
    if 1 ≤ y ∧ 1 ≤ mo ∧ mo ≤ 12 ∧ 1 ≤ d ∧ d ≤ daysInMonth y mo ∧
        h ≤ 23 ∧ mi ≤ 59 ∧ s ≤ 59 then
      pure (civilSeconds y mo d h mi s)
    else none
  | _ => none

/-- persisted fields of one artifact record, exactly the dictionary written
by `upload_image` (`original_name`, `image_path`, `qr_path`, `upload_time`,
`view_url`, `file_size`); fields the sweeper reads with `dict.get` are
`Option`s so that their absence can be modelled. -/
structure ImageRec where
  original_name : String
  image_path : Option String
  qr_path : Option String
  upload_time : Option String
  view_url : String
  file_size : Nat
deriving DecidableEq, Repr

/-- the JSON store `image_data.json`: an insertion-ordered mapping from
image id to record, as a Python dict. -/
abbrev Store := List (String × ImageRec)

/-- upload time of a record: Python's
`datetime.fromisoformat(info.get('upload_time', '2024-01-01T00:00:00'))`. -/
def recUploadTime (r : ImageRec) : Option Nat :=
  fromisoformat (r.upload_time.getD "2024-01-01T00:00:00")

/-- seven days, the retention threshold `timedelta(days=7)`, in seconds. -/
def maxAgeSeconds : Nat := 7 * 86400

/-- the age test `current_time - upload_time > timedelta(days=7)`. -/
def isExpiredAt (now t : Nat) : Bool :=
  decide ((now : Int) - (t : Int) > (maxAgeSeconds : Int))

/-- whether the sweep evicts a record at time `now` (only meaningful when
the record's upload time parses; an unparseable one aborts the sweep
instead). -/
def expiredB (now : Nat) (r : ImageRec) : Bool :=
  match recUploadTime r with
  | some t => isExpiredAt now t
  | none => false

/-- the file system: the list of paths that currently exist. -/
abbrev FileSys := List String

/-- Python's `os.path.exists`; the empty string (the `dict.get` default when
a path field is missing) never names an existing file. -/
def pathExists (fs : FileSys) (p : String) : Bool :=
  decide (p ≠ "") && fs.contains p

/-- `os.remove`: the path no longer exists afterwards. -/
def removeFile (fs : FileSys) (p : String) : FileSys :=
  fs.filter (fun q => decide (q ≠ p))

/-- the singleton list of a nonempty path, used to describe deletions. -/
def pathList (p : String) : List String :=
  if p ≠ "" then [p] else []

/-- the guarded deletions of one evicted record's backing files:
`if os.path.exists(info.get('image_path', '')): os.remove(...)` and the same
for `qr_path`; deletion failures are swallowed by the inner `except`. -/
def deleteRecFiles (fs : FileSys) (r : ImageRec) : FileSys :=
  let ip := r.image_path.getD ""
  let fs1 := if pathExists fs ip then removeFile fs ip else fs
  let qp := r.qr_path.getD ""
  if pathExists fs1 qp then removeFile fs1 qp else fs1

/-- the `for image_id, info in data.items()` loop of `clean_old_images`:
walks the records in insertion order, collects the ids to evict and deletes
their files as it goes; the first unparseable `upload_time` raises
`ValueError`, reported as first component `false` with the file system as
already mutated. -/
def sweepLoop (now : Nat) :
    List (String × ImageRec) → List String → FileSys →
    Bool × List String × FileSys
  | [], toRemove, fs => (true, toRemove, fs)
  | (i, r) :: rest, toRemove, fs =>
    match recUploadTime r with
    | none => (false, toRemove, fs)
    | some t =>
      if isExpiredAt now t then
        sweepLoop now rest (toRemove ++ [i]) (deleteRecFiles fs r)
      else
        sweepLoop now rest toRemove fs

/-- observable outcome of one `clean_old_images` call: the in-memory
mapping when the function ends, the file system, the list of
`save_image_data` calls it made (each with the mapping it persisted), the
count it logged in its `Nettoyage` message, and its Python return value
(the function body has no `return`, so it is always `None`). -/
structure SweepResult where
  store : Store
  fs : FileSys
  saves : List Store
  logged : Option Nat
  ret : Option Nat
deriving DecidableEq, Repr

/-- model of `clean_old_images` acting on the loaded mapping `data`, the
file system and the current time.  The outer `try` turns the `ValueError`
of an unparseable `upload_time` into a logged message and an early end with
nothing persisted; otherwise the collected ids are popped from the mapping
and the mapping is saved once, only when at least one id was collected. -/
def clean_old_images (data : Store) (fs : FileSys) (now : Nat) : SweepResult :=
  let res := sweepLoop now data [] fs
  if res.1 then
    let toRemove := res.2.1
    let data1 :=
      toRemove.foldl (fun d i => d.filter (fun kv => decide (kv.1 ≠ i))) data
    if toRemove.isEmpty then ⟨data1, res.2.2, [], none, none⟩
    else ⟨data1, res.2.2, [data1], some toRemove.length, none⟩
  else ⟨data, res.2.2, [], none, none⟩

/-- round half to even of `N / D`, for positive `D`. -/
def rndNearestEven (N D : Nat) : Nat :=
  let q := N / D
  let r := N % D
  if 2 * r < D then q
  else if D < 2 * r then q + 1
  else if q % 2 = 0 then q else q + 1

/-- fuel-bounded base-2 logarithm; structural recursion on the fuel keeps
it kernel-computable.  `log2fuel f n = ⌊log₂ n⌋` whenever `1 ≤ n < 2 ^ f`. -/
def log2fuel : Nat → Nat → Nat
  | 0, _ => 0
  | fuel + 1, n => if n ≤ 1 then 0 else log2fuel fuel (n / 2) + 1

/-- a nonnegative dyadic rational `m / 2 ^ k`: the exact value of every
nonnegative binary64 number. -/
structure Dy where
  m : Nat
  k : Nat
deriving DecidableEq, Repr

/-- the rational value of a dyadic. -/
def dyVal (a : Dy) : ℚ := (a.m : ℚ) / 2 ^ a.k

/-- IEEE-754 binary64 rounding (round to nearest, ties to even) of the
nonnegative rational `N / D`, as its exact dyadic value.  The binade is
located through a 400-step base-2 logarithm of `N·2^200 / D`, which covers
every magnitude this application's arithmetic visits, and the significand
is rounded to 53 bits at that binade; overflow and subnormals are far
outside the visited range. -/
def flRat (N D : Nat) : Dy :=
  if N = 0 ∨ D = 0 then ⟨0, 0⟩
  else
    let t := log2fuel 400 (N * 2 ^ 200 / D)
    if t ≤ 252 then ⟨rndNearestEven (N * 2 ^ (252 - t)) D, 252 - t⟩
    else ⟨rndNearestEven N (D * 2 ^ (t - 252)) * 2 ^ (t - 252), 0⟩

/-- Python float division of two naturals (both exactly representable, as
all the operands here are). -/
def pyDivNat (a b : Nat) : Dy := flRat a b

/-- Python float multiplication of an integer by a float. -/
def pyMulNatDy (w : Nat) (r : Dy) : Dy := flRat (w * r.m) (2 ^ r.k)

/-- Python `min` on two floats. -/
def minDy (a b : Dy) : Dy :=
  if a.m * 2 ^ b.k ≤ b.m * 2 ^ a.k then a else b

/-- Python `int()` truncation of a nonnegative float. -/
def truncDy (a : Dy) : Nat := a.m / 2 ^ a.k

/-- an in-memory PIL image: dimensions, mode string and pixel content, the
content abstracted to a type `α`. -/
structure Img (α : Type) where
  width : Nat
  height : Nat
  mode : String
  data : α
deriving DecidableEq, Repr

/-- the PIL primitives the optimizer calls, abstracted over pixel content:
pasting onto a white RGB background, resizing, and the byte length written
by `img.save(output, format='JPEG', quality=q, optimize=True)`. -/
structure ImgOps (α : Type) where
  flattenData : α → α
  resizeData : α → Nat → Nat → α
  jpegSize : Img α → Nat → Nat

/-- the mode-flattening step: `RGBA`, `LA` and `P` images are pasted onto a
white RGB background of the same size (`P` via an intermediate `RGBA`);
any other mode passes through unchanged. -/
def convertRGB (ops : ImgOps α) (img : Img α) : Img α :=
  if img.mode = "RGBA" || img.mode = "LA" || img.mode = "P" then
    ⟨img.width, img.height, "RGB", ops.flattenData img.data⟩
  else img

/-- the dimension cap: when a side exceeds 1920, the source computes
`min(1920 / w, 1920 / h)` in binary64, multiplies each side by it in
binary64 and truncates with `int()`; both float operations are modelled
exactly by `fl`. -/
def capDimensions (ops : ImgOps α) (img : Img α) : Img α :=
  if img.width > 1920 || img.height > 1920 then
    let r := minDy (pyDivNat 1920 img.width) (pyDivNat 1920 img.height)
    let nw := truncDy (pyMulNatDy img.width r)
    let nh := truncDy (pyMulNatDy img.height r)
    ⟨nw, nh, img.mode, ops.resizeData img.data nw nh⟩
  else img

/-- the fallback scale factors, as the binary64 values of the literals
`0.8`, `0.6`, `0.4`. -/
def scaleFactors : List Dy := [flRat 4 5, flRat 3 5, flRat 2 5]

/-- `img.resize((int(img.width * scale), int(img.height * scale)))` for a
float scale factor. -/
def scaledImg (ops : ImgOps α) (img : Img α) (sc : Dy) : Img α :=
  let nw := truncDy (pyMulNatDy img.width sc)
  let nh := truncDy (pyMulNatDy img.height sc)
  ⟨nw, nh, img.mode, ops.resizeData img.data nw nh⟩

/-- the budget test `len(output.getvalue()) / 1024 <= max_size_kb`; the
division by `1024` is exact in binary64 for any realistic byte count, so
the float comparison coincides with `size ≤ maxKB * 1024`. -/
def fitsBudget (size maxKB : Nat) : Bool := decide (size ≤ maxKB * 1024)

/-- what `optimize_image` hands back: a JPEG re-encode of some image at
some quality (a fresh `BytesIO`), or the unchanged original upload (the
`except` path rewinds `image_file` and returns it as is). -/
inductive OptOut (α : Type) where
  | jpeg (img : Img α) (quality : Nat)
  | original
deriving DecidableEq, Repr

/-- the quality sequence of the first loop. -/
def qualitySeq : List Nat := [85, 75, 65, 55, 45, 35]

/-- the `for quality in [85, 75, 65, 55, 45, 35]` loop with its early
return. -/
def qualityLoop (ops : ImgOps α) (img : Img α) (maxKB : Nat) :
    List Nat → Option (OptOut α)
  | [] => none
  | q :: rest =>
    if fitsBudget (ops.jpegSize img q) maxKB then some (.jpeg img q)
    else qualityLoop ops img maxKB rest

/-- the `for scale in [0.8, 0.6, 0.4]` loop: each pass resizes the capped
image afresh and encodes at quality 30, with an early return. -/
def scaleLoop (ops : ImgOps α) (img : Img α) (maxKB : Nat) :
    List Dy → Option (OptOut α)
  | [] => none
  | sc :: rest =>
    let scaled := scaledImg ops img sc
    if fitsBudget (ops.jpegSize scaled 30) maxKB then some (.jpeg scaled 30)
    else scaleLoop ops img maxKB rest

/-- model of `optimize_image`: input `none` stands for bytes that
`Image.open` cannot decode, in which case the `except` handler returns the
original file object; a decoded image is flattened, dimension-capped and
then searched over qualities, then scales, with the unconditional
quality-20 encode as last resort. -/
def optimize_image (ops : ImgOps α) (input : Option (Img α)) (maxKB : Nat) :
    OptOut α :=
  match input with
  | none => .original
  | some img0 =>
    let img := capDimensions ops (convertRGB ops img0)
    match qualityLoop ops img maxKB qualitySeq with
    | some out => out
    | none =>
      match scaleLoop ops img maxKB scaleFactors with
      | some out => out
      | none => .jpeg img 20

/-- declarative form of the size search, following the specification's
words: a fixed list of attempts tried in order, the first one meeting the
byte budget winning. -/
def specAttempts (ops : ImgOps α) (img : Img α) : List (Img α × Nat) :=
  qualitySeq.map (fun q => (img, q)) ++
    scaleFactors.map (fun sc => (scaledImg ops img sc, 30))

/-- declarative form of `optimize_image` past decoding: first fitting
attempt, else the quality-20 encode of the capped image, unconditionally. -/
def specSearch (ops : ImgOps α) (img : Img α) (maxKB : Nat) : OptOut α :=
  match (specAttempts ops img).find?
      (fun a => fitsBudget (ops.jpegSize a.1 a.2) maxKB) with
  | some a => .jpeg a.1 a.2
  | none => .jpeg img 20

/-- a concrete pixel-content instantiation for running the model on
examples: content carries nothing and the byte count is a simple function
of dimensions and quality. -/
def unitOps : ImgOps Unit where
  flattenData := fun _ => ()
  resizeData := fun _ _ _ => ()
  jpegSize := fun img q => img.width * img.height * q / 100

/-- a rendered QR image, abstracted to the byte length of the payload it
encodes; the wrapper hands the payload to the library untransformed, so
nothing more is needed to state that no truncated payload is returned. -/
structure QRImage where
  dataLen : Nat
deriving DecidableEq, Repr

/-- a Python call observed from outside: a normal return, or an uncaught
exception of the named kind. -/
inductive PyResult (α : Type) where
  | ok (val : α)
  | exn (name : String)
deriving DecidableEq, Repr

/-- byte-mode capacity in bytes of a version-40 QR code at error-correction
level M, the most the `qrcode` library fits with `fit=True` and
`ERROR_CORRECT_M` for a single byte-mode segment before raising
`DataOverflowError`.  The URLs this application encodes contain lowercase
letters, so the library always picks byte mode for them. -/
def QR_CAPACITY_BYTES_M : Nat := 2331

/-- the `qrcode` library under `fit=True` on a byte-mode payload: grows the
version until the data fits and raises `DataOverflowError` (`none`) past
the capacity of version 40. -/
def qrMakeFit (dataLen cap : Nat) : Option QRImage :=
  if dataLen ≤ cap then some ⟨dataLen⟩ else none

/-- model of `create_qr_code` in `app.py`: the whole body sits in a `try`
whose handler prints and returns `None`, so a capacity overflow inside the
library is never re-raised to the caller. -/
def create_qr_code (url : String) : PyResult (Option QRImage) :=
  match qrMakeFit url.utf8ByteSize QR_CAPACITY_BYTES_M with
  | some q => .ok (some q)
  | none => .ok none

/-- observable outcome of `save_image_data`: what got persisted, whether an
exception escaped, and the Python return value. -/
structure SaveOutcome where
  persisted : Option Store
  raised : Bool
  ret : Option Nat
deriving DecidableEq, Repr

/-- model of `save_image_data` with an explicit failure switch for the
write (`json.dump` raising, e.g. on a full disk): the `except` handler
prints and falls through, so the function returns `None` either way and no
exception escapes. -/
def save_image_data (data : Store) (writeFails : Bool) : SaveOutcome :=
  if writeFails then ⟨none, false, none⟩ else ⟨some data, false, none⟩

/-- observable outcome of one upload request past its validation: the
persisted mapping, the file system, and whether the handler answered with
success. -/
structure UploadResult where
  store : Store
  fs : FileSys
  ok : Bool
deriving DecidableEq, Repr

/-- writing a file leaves it present; overwriting changes no other path. -/
def writeFile (fs : FileSys) (p : String) : FileSys :=
  if fs.contains p then fs else p :: fs

/-- Python dict assignment `data[image_id] = record`: update in place when
the key exists, append otherwise. -/
def dictInsert (d : Store) (k : String) (v : ImageRec) : Store :=
  if d.any (fun kv => kv.1 = k) then
    d.map (fun kv => if kv.1 = k then (k, v) else kv)
  else d ++ [(k, v)]

/-- model of the effect sequence of `upload_image` past its validation:
sweep, write the optimized image file, render and write the QR file, then
insert the record and save.  `data` and `fs` are the persisted mapping and
the file system when the request arrives; `nowIso` is
`datetime.now().isoformat()`; `image_id` is the fresh uuid; `imgSize` is
the byte size of the optimized image; `qrOk` tells whether
`create_qr_code` produced an image (on `None` the handler answers 500,
after the image file was already written). -/
def upload_image (data : Store) (fs : FileSys) (now : Nat) (nowIso : String)
    (image_id original view_url : String) (imgSize : Nat) (qrOk : Bool) :
    UploadResult :=
  let sw := clean_old_images data fs now
  let persisted := if sw.saves.isEmpty then data else sw.store
  let image_path := "static/images/" ++ image_id ++ ".jpg"
  let fs1 := writeFile sw.fs image_path
  if qrOk then
    let qr_path := "static/qr_codes/qr_" ++ image_id ++ ".png"
    let fs2 := writeFile fs1 qr_path
    let newRec : ImageRec :=
      ⟨original, some image_path, some qr_path, some nowIso, view_url, imgSize⟩
    ⟨dictInsert persisted image_id newRec, fs2, true⟩
  else ⟨persisted, fs1, false⟩

/-- records the sweep keeps. -/
def sweptStore (now : Nat) (data : Store) : Store :=
  data.filter (fun kv => !expiredB now kv.2)

/-- ids of the records the sweep evicts, in insertion order. -/
def removedIds (now : Nat) (data : Store) : List String :=
  (data.filter (fun kv => expiredB now kv.2)).map Prod.fst

/-- the (nonempty) backing-file paths of a record. -/
def recPaths (r : ImageRec) : List String :=
  pathList (r.image_path.getD "") ++ pathList (r.qr_path.getD "")

/-- paths of the files the sweep deletes: the backing files of the evicted
records. -/
def deletedPaths (now : Nat) (data : Store) : List String :=
  (data.filter (fun kv => expiredB now kv.2)).foldr
    (fun kv acc => recPaths kv.2 ++ acc) []

/-- file system after the sweep: every deleted path gone, all else kept. -/
def sweptFs (now : Nat) (data : Store) (fs : FileSys) : FileSys :=
  fs.filter (fun p => decide (p ∉ deletedPaths now data))

/-- a store all whose records carry a parseable (or absent, hence
defaulted) upload time — a well-formed store, as every store this
application itself writes. -/
@[reducible] def ParseableStore (data : Store) : Prop :=
  ∀ kv ∈ data, (recUploadTime kv.2).isSome = true

/-- keys of a store are pairwise distinct, as they are in a Python dict. -/
@[reducible] def NodupKeys (data : Store) : Prop :=
  (data.map Prod.fst).Nodup

/-- backing-file paths are owned exclusively: distinct entries never name a
common path (the specification's exclusivity invariant). -/
@[reducible] def ExclusivePaths (data : Store) : Prop :=
  ∀ kv ∈ data, ∀ kv2 ∈ data, kv ≠ kv2 →
    ∀ p ∈ recPaths kv.2, p ∉ recPaths kv2.2

/-- a record uploaded 2024-01-01, with both backing files present. -/
def recJan1 : ImageRec :=
  ⟨"photo.png", some "static/images/img1.jpg", some "static/qr_codes/qr_img1.png",
    some "2024-01-01T00:00:00", "https://example.com/view/img1", 120000⟩

/-- a record uploaded 2024-01-08 at noon. -/
def recJan8 : ImageRec :=
  ⟨"fresh.png", some "static/images/img2.jpg", some "static/qr_codes/qr_img2.png",
    some "2024-01-08T12:00:00", "https://example.com/view/img2", 30000⟩

/-- eight days after `recJan1`'s upload time. -/
def nowJan9 : Nat := (fromisoformat "2024-01-09T00:00:00").getD 0

/-- the second of 2024-01-01T00:00:00, the sweeper's default for a missing
`upload_time`. -/
def defaultUploadSeconds : Nat := civilSeconds 2024 1 1 0 0 0

/-- store of the retention scenario of the specification: one record,
eight days old at `nowJan9`. -/
def storeScenario : Store := [("img1", recJan1)]

/-- file system of the retention scenario. -/
def fsScenario : FileSys :=
  ["static/images/img1.jpg", "static/qr_codes/qr_img1.png"]

/-- a store holding one expired and one fresh record. -/
def storeMixed : Store := [("img1", recJan1), ("img2", recJan8)]

/-- file system backing `storeMixed`. -/
def fsMixed : FileSys :=
  ["static/images/img1.jpg", "static/qr_codes/qr_img1.png",
   "static/images/img2.jpg", "static/qr_codes/qr_img2.png"]

/-- an expired record that sits before the malformed one. -/
def recOldA : ImageRec :=
  ⟨"a.png", some "static/images/a.jpg", some "static/qr_codes/qr_a.png",
    some "2024-01-01T00:00:00", "https://example.com/view/a", 1000⟩

/-- a record whose `upload_time` is not an ISO-8601 string. -/
def recBadTime : ImageRec :=
  ⟨"b.png", some "static/images/b.jpg", some "static/qr_codes/qr_b.png",
    some "not-a-date", "https://example.com/view/b", 2000⟩

/-- a store with an expired record followed by a malformed one. -/
def storeWithBad : Store := [("a", recOldA), ("b", recBadTime)]

/-- file system backing `storeWithBad`'s first record. -/
def fsWithBad : FileSys := ["static/images/a.jpg", "static/qr_codes/qr_a.png"]

/-- an expired record, distinct fixture for the invariant claim. -/
def recOldC : ImageRec :=
  ⟨"c.png", some "static/images/c.jpg", some "static/qr_codes/qr_c.png",
    some "2023-12-25T00:00:00", "https://example.com/view/c", 3000⟩

/-- a malformed-timestamp record, distinct fixture for the invariant
claim. -/
def recBadTimeD : ImageRec :=
  ⟨"d.png", some "static/images/d.jpg", some "static/qr_codes/qr_d.png",
    some "2024/01/03", "https://example.com/view/d", 4000⟩

/-- a store whose sweep leaves a dangling record. -/
def storeDangling : Store := [("c", recOldC), ("d", recBadTimeD)]

/-- file system backing `storeDangling`. -/
def fsDangling : FileSys :=
  ["static/images/c.jpg", "static/qr_codes/qr_c.png",
   "static/images/d.jpg", "static/qr_codes/qr_d.png"]

/-- a record lacking `upload_time` entirely. -/
def recNoTime : ImageRec :=
  ⟨"n.png", some "static/images/n.jpg", some "static/qr_codes/qr_n.png",
    none, "https://example.com/view/n", 500⟩

/-- a store holding only the record without `upload_time`. -/
def storeNoTime : Store := [("n", recNoTime)]

/-- file system backing `storeNoTime`. -/
def fsNoTime : FileSys := ["static/images/n.jpg", "static/qr_codes/qr_n.png"]

/-- a 2332-byte payload, one byte past the byte-mode capacity of a
version-40 level-M QR code. -/
def longUrl : String := String.mk (List.replicate 2332 'a')

/-! Helper lemmas about the sweep. -/

/-- one guarded deletion acts as a filter against the (possibly empty)
singleton of the path. -/
theorem guardedRemove_eq (fs : FileSys) (p : String) :
    (if pathExists fs p then removeFile fs p else fs) =
      fs.filter (fun q => decide (q ∉ pathList p)) := by
  by_cases hp : p = ""
  · subst hp
    simp [pathExists, pathList]
  · by_cases hm : p ∈ fs
    · have : pathExists fs p = true := by simp [pathExists, hp, hm]
      rw [if_pos this]
      unfold removeFile
      refine List.filter_congr (fun q _ => ?_)
      by_cases h : q = p <;> simp [h, pathList, hp]
    · have : pathExists fs p = false := by simp [pathExists, hp, hm]
      rw [if_neg (by simp [this])]
      have hpm : p ∉ fs := hm
      refine (List.filter_eq_self.mpr (fun q hq => ?_)).symm
      have : q ≠ p := fun h => hpm (h ▸ hq)
      simp [pathList, hp, this]

/-- deleting one record's files acts as a filter against its path list. -/
theorem deleteRecFiles_eq (fs : FileSys) (r : ImageRec) :
    deleteRecFiles fs r = fs.filter (fun q => decide (q ∉ recPaths r)) := by
  unfold deleteRecFiles recPaths
  rw [guardedRemove_eq, guardedRemove_eq, List.filter_filter]
  refine List.filter_congr (fun q _ => ?_)
  by_cases h1 : q ∈ pathList (r.image_path.getD "") <;>
    by_cases h2 : q ∈ pathList (r.qr_path.getD "") <;> simp [h1, h2]

/-- filtering against an appended block list splits into two filters. -/
theorem filter_not_mem_append (fs : FileSys) (l1 l2 : List String) :
    fs.filter (fun q => decide (q ∉ l1 ++ l2)) =
      (fs.filter (fun q => decide (q ∉ l1))).filter
        (fun q => decide (q ∉ l2)) := by
  rw [List.filter_filter]
  refine (List.filter_congr (fun q _ => ?_)).symm
  by_cases h1 : q ∈ l1 <;> by_cases h2 : q ∈ l2 <;> simp [h1, h2]

/-- the expiry flag of a record with a parsed upload time. -/
theorem expiredB_of_time {now t : Nat} {r : ImageRec}
    (ht : recUploadTime r = some t) : expiredB now r = isExpiredAt now t := by
  simp [expiredB, ht]

/-- one cons step of `deletedPaths` for an expired head. -/
theorem deletedPaths_cons_expired {now : Nat} {kv : String × ImageRec}
    {rest : Store} (he : expiredB now kv.2 = true) :
    deletedPaths now (kv :: rest) = recPaths kv.2 ++ deletedPaths now rest := by
  simp [deletedPaths, List.filter_cons, he]

/-- one cons step of `deletedPaths` for a live head. -/
theorem deletedPaths_cons_live {now : Nat} {kv : String × ImageRec}
    {rest : Store} (he : expiredB now kv.2 = false) :
    deletedPaths now (kv :: rest) = deletedPaths now rest := by
  simp [deletedPaths, List.filter_cons, he]

/-- on a store whose upload times all parse, the loop completes and its
result has a closed form: the collected ids are those of the expired
records in order, and the file system is filtered by the deleted paths. -/
theorem sweepLoop_parseable (now : Nat) (data : List (String × ImageRec)) :
    ∀ (acc : List String) (fs : FileSys), ParseableStore data →
      sweepLoop now data acc fs =
        (true, acc ++ removedIds now data, sweptFs now data fs) := by
  induction data with
  | nil =>
    intro acc fs _
    simp [sweepLoop, removedIds, sweptFs, deletedPaths]
  | cons kv rest ih =>
    intro acc fs hp
    obtain ⟨i, r⟩ := kv
    obtain ⟨t, ht⟩ :=
      Option.isSome_iff_exists.mp (hp (i, r) (List.mem_cons_self _ _))
    have hrest : ParseableStore rest :=
      fun kv2 h2 => hp kv2 (List.mem_cons_of_mem _ h2)
    cases hexp : isExpiredAt now t with
    | true =>
      have hexpB : expiredB now (i, r).2 = true := by
        rw [expiredB_of_time ht, hexp]
      have hstep : sweepLoop now ((i, r) :: rest) acc fs =
          sweepLoop now rest (acc ++ [i]) (deleteRecFiles fs r) := by
        simp [sweepLoop, ht, hexp]
      rw [hstep, ih (acc ++ [i]) (deleteRecFiles fs r) hrest]
      have hids : (acc ++ [i]) ++ removedIds now rest =
          acc ++ removedIds now ((i, r) :: rest) := by
        simp [removedIds, List.filter_cons, hexpB]
      have hfs : sweptFs now rest (deleteRecFiles fs r) =
          sweptFs now ((i, r) :: rest) fs := by
        unfold sweptFs
        rw [deleteRecFiles_eq, deletedPaths_cons_expired hexpB,
          filter_not_mem_append]
      rw [hids, hfs]
    | false =>
      have hexpB : expiredB now (i, r).2 = false := by
        rw [expiredB_of_time ht, hexp]
      have hstep : sweepLoop now ((i, r) :: rest) acc fs =
          sweepLoop now rest acc fs := by
        simp [sweepLoop, ht, hexp]
      rw [hstep, ih acc fs hrest]
      have hids : removedIds now rest = removedIds now ((i, r) :: rest) := by
        simp [removedIds, List.filter_cons, hexpB]
      have hfs : sweptFs now rest fs = sweptFs now ((i, r) :: rest) fs := by
        unfold sweptFs
        rw [deletedPaths_cons_live hexpB]
      rw [hids, hfs]

/-- popping a list of ids one by one equals a single filter against the
list. -/
theorem foldl_pop_eq (toRemove : List String) :
    ∀ data : Store,
      toRemove.foldl
          (fun d i => d.filter (fun kv => decide (kv.1 ≠ i))) data =
        data.filter (fun kv => decide (kv.1 ∉ toRemove)) := by
  induction toRemove with
  | nil => intro data; simp
  | cons i is ih =>
    intro data
    rw [List.foldl_cons, ih, List.filter_filter]
    refine List.filter_congr (fun kv _ => ?_)
    by_cases h1 : kv.1 = i <;> by_cases h2 : kv.1 ∈ is <;> simp [h1, h2]

/-- in a store with pairwise-distinct keys, an entry is determined by its
key. -/
theorem keys_unique {data : Store} (hnd : NodupKeys data) :
    ∀ kv ∈ data, ∀ kv2 ∈ data, kv.1 = kv2.1 → kv = kv2 := by
  induction data with
  | nil => intro kv h; cases h
  | cons a l ih =>
    intro kv hkv kv2 hkv2 heq
    have hnd1 : (a.1 :: l.map Prod.fst).Nodup := by
      unfold NodupKeys at hnd
      rwa [List.map_cons] at hnd
    have hcons := List.nodup_cons.mp hnd1
    have hna : a.1 ∉ l.map Prod.fst := hcons.1
    have hnd2 : NodupKeys l := hcons.2
    rcases List.mem_cons.mp hkv with h1 | h1 <;>
      rcases List.mem_cons.mp hkv2 with h2 | h2
    · rw [h1, h2]
    · exact absurd (h1 ▸ heq ▸ List.mem_map_of_mem Prod.fst h2) (h1 ▸ hna)
    · exact absurd (h2 ▸ heq ▸ List.mem_map_of_mem Prod.fst h1) (h2 ▸ hna)
    · exact ih hnd2 kv h1 kv2 h2 heq

/-- membership in the deleted paths, spelled out. -/
theorem mem_deletedPaths {now : Nat} {data : Store} {p : String} :
    p ∈ deletedPaths now data ↔
      ∃ kv, kv ∈ data ∧ expiredB now kv.2 = true ∧ p ∈ recPaths kv.2 := by
  induction data with
  | nil => simp [deletedPaths]
  | cons a l ih =>
    cases he : expiredB now a.2 with
    | true =>
      rw [deletedPaths_cons_expired he]
      simp only [List.mem_append, ih, List.mem_cons]
      constructor
      · rintro (hpa | ⟨kv, hkv, hex, hp⟩)
        · exact ⟨a, Or.inl rfl, he, hpa⟩
        · exact ⟨kv, Or.inr hkv, hex, hp⟩
      · rintro ⟨kv, hkv | hkv, hex, hp⟩
        · exact Or.inl (hkv ▸ hp)
        · exact Or.inr ⟨kv, hkv, hex, hp⟩
    | false =>
      rw [deletedPaths_cons_live he]
      rw [ih]
      constructor
      · rintro ⟨kv, hkv, hex, hp⟩
        exact ⟨kv, List.mem_cons_of_mem _ hkv, hex, hp⟩
      · rintro ⟨kv, hkv, hex, hp⟩
        rcases List.mem_cons.mp hkv with h | h
        · rw [h] at hex
          rw [hex] at he
          cases he
        · exact ⟨kv, h, hex, hp⟩

/-- closed form of one whole `clean_old_images` call on a store whose
upload times all parse and whose keys are distinct. -/
theorem clean_old_images_eq (data : Store) (fs : FileSys) (now : Nat)
    (hp : ParseableStore data) (hnd : NodupKeys data) :
    clean_old_images data fs now =
      if (removedIds now data).isEmpty then
        ⟨sweptStore now data, sweptFs now data fs, [], none, none⟩
      else
        ⟨sweptStore now data, sweptFs now data fs, [sweptStore now data],
          some (removedIds now data).length, none⟩ := by
  have hstore :
      data.filter (fun kv => decide (kv.1 ∉ removedIds now data)) =
        sweptStore now data := by
    unfold sweptStore
    refine List.filter_congr (fun kv hkv => ?_)
    cases he : expiredB now kv.2 with
    | true =>
      have hmem : kv.1 ∈ removedIds now data := by
        unfold removedIds
        exact List.mem_map_of_mem Prod.fst (List.mem_filter.mpr ⟨hkv, he⟩)
      simp [hmem]
    | false =>
      have hmem : kv.1 ∉ removedIds now data := by
        intro hmem
        obtain ⟨kv2, hkv2, hfst⟩ := List.mem_map.mp hmem
        have hkv2f := List.mem_filter.mp hkv2
        have : kv2 = kv := keys_unique hnd kv2 hkv2f.1 kv hkv hfst
        rw [this] at hkv2f
        rw [hkv2f.2] at he
        cases he
      simp [hmem]
  unfold clean_old_images
  rw [sweepLoop_parseable now data [] fs hp]
  simp only [List.nil_append]
  rw [foldl_pop_eq, hstore]
  by_cases hemp : (removedIds now data).isEmpty <;> simp [hemp]

/-- when a parseable block is followed by a record whose upload time does
not parse, the loop stops at that record with a `ValueError`: records past
it are never visited, and the file system keeps exactly the mutations made
before the bad record. -/
theorem sweepLoop_abort (now : Nat) (pre : Store) :
    ∀ (acc : List String) (fs : FileSys) (j : String) (rbad : ImageRec)
      (post : Store), ParseableStore pre → recUploadTime rbad = none →
      sweepLoop now (pre ++ (j, rbad) :: post) acc fs =
        (false, acc ++ removedIds now pre, sweptFs now pre fs) := by
  induction pre with
  | nil =>
    intro acc fs j rbad post _ hbad
    simp [sweepLoop, hbad, removedIds, sweptFs, deletedPaths]
  | cons kv rest ih =>
    intro acc fs j rbad post hp hbad
    obtain ⟨i, r⟩ := kv
    obtain ⟨t, ht⟩ :=
      Option.isSome_iff_exists.mp (hp (i, r) (List.mem_cons_self _ _))
    have hrest : ParseableStore rest :=
      fun kv2 h2 => hp kv2 (List.mem_cons_of_mem _ h2)
    cases hexp : isExpiredAt now t with
    | true =>
      have hexpB : expiredB now (i, r).2 = true := by
        rw [expiredB_of_time ht, hexp]
      have hstep :
          sweepLoop now (((i, r) :: rest) ++ (j, rbad) :: post) acc fs =
            sweepLoop now (rest ++ (j, rbad) :: post) (acc ++ [i])
              (deleteRecFiles fs r) := by
        simp [sweepLoop, ht, hexp]
      rw [hstep, ih (acc ++ [i]) (deleteRecFiles fs r) j rbad post hrest hbad]
      have hids : (acc ++ [i]) ++ removedIds now rest =
          acc ++ removedIds now ((i, r) :: rest) := by
        simp [removedIds, List.filter_cons, hexpB]
      have hfs : sweptFs now rest (deleteRecFiles fs r) =
          sweptFs now ((i, r) :: rest) fs := by
        unfold sweptFs
        rw [deleteRecFiles_eq, deletedPaths_cons_expired hexpB,
          filter_not_mem_append]
      rw [hids, hfs]
    | false =>
      have hexpB : expiredB now (i, r).2 = false := by
        rw [expiredB_of_time ht, hexp]
      have hstep :
          sweepLoop now (((i, r) :: rest) ++ (j, rbad) :: post) acc fs =
            sweepLoop now (rest ++ (j, rbad) :: post) acc fs := by
        simp [sweepLoop, ht, hexp]
      rw [hstep, ih acc fs j rbad post hrest hbad]
      have hids : removedIds now rest = removedIds now ((i, r) :: rest) := by
        simp [removedIds, List.filter_cons, hexpB]
      have hfs : sweptFs now rest fs = sweptFs now ((i, r) :: rest) fs := by
        unfold sweptFs
        rw [deletedPaths_cons_live hexpB]
      rw [hids, hfs]

/-- whole-call form of the aborted sweep: the caught `ValueError` ends the
function with the mapping untouched, nothing persisted, nothing logged and
`None` returned, while the files deleted before the bad record stay
deleted. -/
theorem clean_old_images_abort (pre : Store) (j : String) (rbad : ImageRec)
    (post : Store) (fs : FileSys) (now : Nat)
    (hp : ParseableStore pre) (hbad : recUploadTime rbad = none) :
    clean_old_images (pre ++ (j, rbad) :: post) fs now =
      ⟨pre ++ (j, rbad) :: post, sweptFs now pre fs, [], none, none⟩ := by
  unfold clean_old_images
  rw [sweepLoop_abort now pre [] fs j rbad post hp hbad]
  simp

/-- membership in the swept file system, spelled out. -/
theorem mem_sweptFs {now : Nat} {data : Store} {fs : FileSys} {p : String} :
    p ∈ sweptFs now data fs ↔ p ∈ fs ∧ p ∉ deletedPaths now data := by
  simp [sweptFs]

/-- store component of a completed sweep. -/
theorem clean_store_eq (data : Store) (fs : FileSys) (now : Nat)
    (hp : ParseableStore data) (hnd : NodupKeys data) :
    (clean_old_images data fs now).store = sweptStore now data := by
  rw [clean_old_images_eq data fs now hp hnd]
  by_cases h : (removedIds now data).isEmpty <;> simp [h]

/-- file-system component of a completed sweep. -/
theorem clean_fs_eq (data : Store) (fs : FileSys) (now : Nat)
    (hp : ParseableStore data) (hnd : NodupKeys data) :
    (clean_old_images data fs now).fs = sweptFs now data fs := by
  rw [clean_old_images_eq data fs now hp hnd]
  by_cases h : (removedIds now data).isEmpty <;> simp [h]

/-- an expired record's id does not survive a completed sweep. -/
theorem expired_id_gone {data : Store} {fs : FileSys} {now : Nat}
    (hp : ParseableStore data) (hnd : NodupKeys data)
    {kv : String × ImageRec} (hkv : kv ∈ data)
    (he : expiredB now kv.2 = true) :
    kv.1 ∉ (clean_old_images data fs now).store.map Prod.fst := by
  rw [clean_store_eq data fs now hp hnd]
  intro hmem
  obtain ⟨kv2, hkv2, hfst⟩ := List.mem_map.mp hmem
  have hkv2f := List.mem_filter.mp hkv2
  have heq : kv2 = kv := keys_unique hnd kv2 hkv2f.1 kv hkv hfst
  rw [heq] at hkv2f
  rw [he] at hkv2f
  exact absurd hkv2f.2 (by simp)

/-- an expired record's backing files do not survive a completed sweep. -/
theorem expired_files_gone {data : Store} {fs : FileSys} {now : Nat}
    (hp : ParseableStore data) (hnd : NodupKeys data)
    {kv : String × ImageRec} (hkv : kv ∈ data)
    (he : expiredB now kv.2 = true) :
    ∀ p ∈ recPaths kv.2, p ∉ (clean_old_images data fs now).fs := by
  intro p hpp
  rw [clean_fs_eq data fs now hp hnd]
  intro hmem
  exact absurd (mem_deletedPaths.mpr ⟨kv, hkv, he, hpp⟩)
    (mem_sweptFs.mp hmem).2

/-- a live record survives a completed sweep unchanged, and under the
path-exclusivity invariant its backing files are untouched. -/
theorem live_record_kept {data : Store} {fs : FileSys} {now : Nat}
    (hp : ParseableStore data) (hnd : NodupKeys data)
    (hexcl : ExclusivePaths data)
    {kv : String × ImageRec} (hkv : kv ∈ data)
    (he : expiredB now kv.2 = false) :
    kv ∈ (clean_old_images data fs now).store ∧
      ∀ p ∈ recPaths kv.2,
        (p ∈ (clean_old_images data fs now).fs ↔ p ∈ fs) := by
  constructor
  · rw [clean_store_eq data fs now hp hnd]
    exact List.mem_filter.mpr ⟨hkv, by simp [he]⟩
  · intro p hpp
    rw [clean_fs_eq data fs now hp hnd, mem_sweptFs]
    have hnd2 : p ∉ deletedPaths now data := by
      intro hdel
      obtain ⟨kv2, hkv2, hex2, hp2⟩ := mem_deletedPaths.mp hdel
      have hne : kv ≠ kv2 := by
        intro h
        rw [h] at he
        rw [he] at hex2
        cases hex2
      exact absurd hp2 (hexcl kv hkv kv2 hkv2 hne p hpp)
    constructor
    · exact fun h => h.1
    · exact fun h => ⟨h, hnd2⟩

/-- a written file exists afterwards. -/
theorem mem_writeFile_self (fs : FileSys) (p : String) : p ∈ writeFile fs p := by
  unfold writeFile
  cases hc : fs.contains p with
  | true => simpa using List.mem_of_elem_eq_true hc
  | false => simp

/-- writing one file deletes nothing. -/
theorem mem_writeFile_mono {fs : FileSys} {q : String} (p : String)
    (h : q ∈ fs) : q ∈ writeFile fs p := by
  unfold writeFile
  cases hc : fs.contains p <;> simp [h]

/-- an inserted key-value pair is in the dict afterwards. -/
theorem mem_dictInsert_self (d : Store) (k : String) (v : ImageRec) :
    (k, v) ∈ dictInsert d k v := by
  unfold dictInsert
  cases ha : d.any (fun kv => kv.1 = k) with
  | true =>
    obtain ⟨kv0, hkv0, hk0⟩ := List.any_eq_true.mp ha
    rw [if_pos rfl]
    refine List.mem_map.mpr ⟨kv0, hkv0, ?_⟩
    simp [of_decide_eq_true hk0]
  | false =>
    rw [if_neg (by simp)]
    exact List.mem_append_right _ (List.mem_singleton.mpr rfl)

/-! Claim theorems. -/

/-- C1: on every store whose records parse (the mapping of the data model,
with keys unique as in a dict) and every time `now`, `clean_old_images`
keeps exactly the records whose age is within seven days, each unchanged
(`sweptStore` is a filter of the input), deletes exactly the evicted
records' backing files and no others, with a missing file silently skipped
(`sweptFs`), and calls `save_image_data` exactly once with the updated
mapping — and only when at least one record was removed. -/
theorem claim1_sweep_exact (data : Store) (fs : FileSys) (now : Nat)
    (hp : ParseableStore data) (hnd : NodupKeys data) :
    (clean_old_images data fs now).store = sweptStore now data ∧
    (clean_old_images data fs now).fs = sweptFs now data fs ∧
    (clean_old_images data fs now).saves =
      (if (removedIds now data).isEmpty then []
        else [sweptStore now data]) := by
  refine ⟨clean_store_eq data fs now hp hnd, clean_fs_eq data fs now hp hnd, ?_⟩
  rw [clean_old_images_eq data fs now hp hnd]
  by_cases h : (removedIds now data).isEmpty <;> simp [h]

/-- witness for C1 on a two-record store, one record expired and one
fresh. -/
theorem claim1_sweep_exact_witness :
    (ParseableStore storeMixed ∧ NodupKeys storeMixed) ∧
      ((clean_old_images storeMixed fsMixed nowJan9).store =
          sweptStore nowJan9 storeMixed ∧
        (clean_old_images storeMixed fsMixed nowJan9).fs =
          sweptFs nowJan9 storeMixed fsMixed ∧
        (clean_old_images storeMixed fsMixed nowJan9).saves =
          (if (removedIds nowJan9 storeMixed).isEmpty then []
            else [sweptStore nowJan9 storeMixed])) :=
  ⟨⟨by decide, by decide⟩,
    claim1_sweep_exact storeMixed fsMixed nowJan9 (by decide) (by decide)⟩

/-- C5 counterexample: in the specification's scenario (one record eight
days old at `now`), `clean_old_images` returns `None` — its body has no
`return` statement — rather than the count 1 the claim requires. -/
theorem claim5_counterexample :
    nowJan9 = defaultUploadSeconds + 8 * 86400 ∧
    recUploadTime recJan1 = some defaultUploadSeconds ∧
    (clean_old_images storeScenario fsScenario nowJan9).ret = none ∧
    (clean_old_images storeScenario fsScenario nowJan9).ret ≠ some 1 := by
  decide

/-- C5 (amended): in the scenario the first sweep removes the record,
deletes both its files, persists the emptied mapping and logs a removal
count of 1 — but returns `None`, the count being only printed; a second
sweep on the resulting state removes nothing, logs nothing, persists
nothing and again returns `None`. -/
theorem claim5_amended :
    nowJan9 = defaultUploadSeconds + 8 * 86400 ∧
    recUploadTime recJan1 = some defaultUploadSeconds ∧
    (clean_old_images storeScenario fsScenario nowJan9).logged = some 1 ∧
    (clean_old_images storeScenario fsScenario nowJan9).store = [] ∧
    (clean_old_images storeScenario fsScenario nowJan9).fs = [] ∧
    (clean_old_images storeScenario fsScenario nowJan9).saves = [[]] ∧
    (clean_old_images storeScenario fsScenario nowJan9).ret = none ∧
    (clean_old_images (clean_old_images storeScenario fsScenario nowJan9).store
        (clean_old_images storeScenario fsScenario nowJan9).fs nowJan9).logged
      = none ∧
    (clean_old_images (clean_old_images storeScenario fsScenario nowJan9).store
        (clean_old_images storeScenario fsScenario nowJan9).fs nowJan9).saves
      = [] ∧
    (clean_old_images (clean_old_images storeScenario fsScenario nowJan9).store
        (clean_old_images storeScenario fsScenario nowJan9).fs nowJan9).ret
      = none := by
  decide

/-- C9: a record whose `upload_time` field is missing is dated
2024-01-01T00:00:00 by the sweeper's `dict.get` default, so on any
completed sweep more than seven days past that date the record is removed
and its backing files are deleted. -/
theorem claim9_missing_time_default (data : Store) (fs : FileSys) (now : Nat)
    (hp : ParseableStore data) (hnd : NodupKeys data)
    (hnow : isExpiredAt now defaultUploadSeconds = true) :
    ∀ kv ∈ data, kv.2.upload_time = none →
      recUploadTime kv.2 = some defaultUploadSeconds ∧
      kv.1 ∉ (clean_old_images data fs now).store.map Prod.fst ∧
      ∀ p ∈ recPaths kv.2, p ∉ (clean_old_images data fs now).fs := by
  intro kv hkv hnone
  have htime : recUploadTime kv.2 = some defaultUploadSeconds := by
    unfold recUploadTime
    rw [hnone]
    decide
  have hexpB : expiredB now kv.2 = true := by
    rw [expiredB_of_time htime]
    exact hnow
  exact ⟨htime, expired_id_gone hp hnd hkv hexpB,
    expired_files_gone hp hnd hkv hexpB⟩

/-- witness for C9: a store holding one record without `upload_time`,
swept eight days after 2024-01-01. -/
theorem claim9_missing_time_default_witness :
    (ParseableStore storeNoTime ∧ NodupKeys storeNoTime ∧
      isExpiredAt nowJan9 defaultUploadSeconds = true) ∧
    ("n" ∉ (clean_old_images storeNoTime fsNoTime nowJan9).store.map Prod.fst ∧
      "static/images/n.jpg" ∉ (clean_old_images storeNoTime fsNoTime nowJan9).fs) := by
  refine ⟨⟨by decide, by decide, by decide⟩, ?_⟩
  have h := claim9_missing_time_default storeNoTime fsNoTime nowJan9
    (by decide) (by decide) (by decide) ("n", recNoTime) (by decide) rfl
  exact ⟨h.2.1, h.2.2 "static/images/n.jpg" (by decide)⟩

/-- C10 counterexample: with an expired record inserted before the
malformed one, the sweep still deletes the expired record's files on its
way to the `ValueError`, so those files are not "left in place" as the
claim asserts (the mapping is indeed untouched and nothing persisted). -/
theorem claim10_counterexample :
    recUploadTime recBadTime = none ∧
    expiredB nowJan9 recOldA = true ∧
    "static/images/a.jpg" ∈ fsWithBad ∧
    (clean_old_images storeWithBad fsWithBad nowJan9).store = storeWithBad ∧
    (clean_old_images storeWithBad fsWithBad nowJan9).saves = [] ∧
    "static/images/a.jpg" ∉ (clean_old_images storeWithBad fsWithBad nowJan9).fs := by
  decide

/-- C10 (amended): an unparseable `upload_time` makes the sweep raise no
error, remove no record from the mapping and persist nothing — the
`ValueError` is caught by the outer handler — but the expired records that
precede the malformed one in insertion order have already had their backing
files deleted; records from the malformed one on are never visited. -/
theorem claim10_abort_behavior (pre : Store) (j : String) (rbad : ImageRec)
    (post : Store) (fs : FileSys) (now : Nat)
    (hp : ParseableStore pre) (hbad : recUploadTime rbad = none) :
    clean_old_images (pre ++ (j, rbad) :: post) fs now =
      ⟨pre ++ (j, rbad) :: post, sweptFs now pre fs, [], none, none⟩ :=
  clean_old_images_abort pre j rbad post fs now hp hbad

/-- witness for the amended C10 on a concrete two-record store. -/
theorem claim10_abort_behavior_witness :
    (ParseableStore [("a", recOldA)] ∧ recUploadTime recBadTime = none) ∧
    clean_old_images ([("a", recOldA)] ++ ("b", recBadTime) :: []) fsWithBad nowJan9 =
      ⟨[("a", recOldA)] ++ ("b", recBadTime) :: [],
        sweptFs nowJan9 [("a", recOldA)] fsWithBad, [], none, none⟩ :=
  ⟨⟨by decide, by decide⟩,
    claim10_abort_behavior [("a", recOldA)] "b" recBadTime [] fsWithBad nowJan9
      (by decide) (by decide)⟩

/-- C4 counterexample: a sweep that hits a malformed `upload_time` after
an expired record leaves that record in the (unpersisted, hence unchanged)
store while its image file is already deleted — a dangling record, so file
lifetime does not coincide with record lifetime. -/
theorem claim4_counterexample :
    ("c", recOldC) ∈ storeDangling ∧
    recOldC.image_path = some "static/images/c.jpg" ∧
    "static/images/c.jpg" ∈ fsDangling ∧
    expiredB nowJan9 recOldC = true ∧
    ("c", recOldC) ∈ (clean_old_images storeDangling fsDangling nowJan9).store ∧
    (clean_old_images storeDangling fsDangling nowJan9).saves = [] ∧
    "static/images/c.jpg" ∉ (clean_old_images storeDangling fsDangling nowJan9).fs := by
  decide

/-- C4 (amended): the records-and-files lifetime invariant holds for
sweeps only over well-formed stores — all upload times parseable, keys
unique, backing paths exclusively owned: then an expired record leaves the
store together with its files, and a live record stays with its files
untouched.  For uploads, the record is inserted only at the end of the
sequence, after both derived files were written, so a successful upload
ends with the new record and both its files present.  (When a sweep meets
an unparseable `upload_time`, or when QR rendering fails after the image
file was written, the invariant can break, as the counterexample shows.) -/
theorem claim4_lifetime_invariant (data : Store) (fs : FileSys) (now : Nat)
    (nowIso image_id original view_url : String) (imgSize : Nat)
    (hp : ParseableStore data) (hnd : NodupKeys data)
    (hexcl : ExclusivePaths data) :
    (∀ kv ∈ data,
      (expiredB now kv.2 = true →
        kv.1 ∉ (clean_old_images data fs now).store.map Prod.fst ∧
        ∀ p ∈ recPaths kv.2, p ∉ (clean_old_images data fs now).fs) ∧
      (expiredB now kv.2 = false →
        kv ∈ (clean_old_images data fs now).store ∧
        ∀ p ∈ recPaths kv.2,
          (p ∈ (clean_old_images data fs now).fs ↔ p ∈ fs))) ∧
    ((upload_image data fs now nowIso image_id original view_url imgSize true).ok
        = true ∧
      ("static/images/" ++ image_id ++ ".jpg") ∈
        (upload_image data fs now nowIso image_id original view_url imgSize true).fs ∧
      ("static/qr_codes/qr_" ++ image_id ++ ".png") ∈
        (upload_image data fs now nowIso image_id original view_url imgSize true).fs ∧
      (image_id, (⟨original, some ("static/images/" ++ image_id ++ ".jpg"),
          some ("static/qr_codes/qr_" ++ image_id ++ ".png"), some nowIso,
          view_url, imgSize⟩ : ImageRec)) ∈
        (upload_image data fs now nowIso image_id original view_url imgSize true).store) := by
  constructor
  · intro kv hkv
    constructor
    · intro he
      exact ⟨expired_id_gone hp hnd hkv he, expired_files_gone hp hnd hkv he⟩
    · intro he
      exact live_record_kept hp hnd hexcl hkv he
  · unfold upload_image
    simp only [if_pos rfl]
    refine ⟨rfl, ?_, ?_, ?_⟩
    · exact mem_writeFile_mono _ (mem_writeFile_self _ _)
    · exact mem_writeFile_self _ _
    · exact mem_dictInsert_self _ _ _

/-- witness for the amended C4 on the mixed store with a concrete upload. -/
theorem claim4_lifetime_invariant_witness :
    (ParseableStore storeMixed ∧ NodupKeys storeMixed ∧
      ExclusivePaths storeMixed) ∧
    ("img1" ∉ (clean_old_images storeMixed fsMixed nowJan9).store.map Prod.fst ∧
      ("img2", recJan8) ∈ (clean_old_images storeMixed fsMixed nowJan9).store ∧
      (upload_image storeMixed fsMixed nowJan9 "2024-01-09T00:00:01" "u77"
          "o.png" "https://example.com/view/u77" 999 true).ok = true) := by
  refine ⟨⟨by decide, by decide, by decide⟩, ?_⟩
  have h := claim4_lifetime_invariant storeMixed fsMixed nowJan9
    "2024-01-09T00:00:01" "u77" "o.png" "https://example.com/view/u77" 999
    (by decide) (by decide) (by decide)
  refine ⟨((h.1 ("img1", recJan1) (by decide)).1 (by decide)).1,
    ((h.1 ("img2", recJan8) (by decide)).2 (by decide)).1, h.2.1⟩

/-- the quality loop is the first-fit search over its quality list. -/
theorem qualityLoop_eq_find? (ops : ImgOps α) (img : Img α) (maxKB : Nat) :
    ∀ qs : List Nat,
      qualityLoop ops img maxKB qs =
        (qs.find? (fun q => fitsBudget (ops.jpegSize img q) maxKB)).map
          (fun q => OptOut.jpeg img q) := by
  intro qs
  induction qs with
  | nil => rfl
  | cons q rest ih =>
    cases hfit : fitsBudget (ops.jpegSize img q) maxKB <;>
      simp [qualityLoop, List.find?, hfit, ih]

/-- the scale loop is the first-fit search over its scale list. -/
theorem scaleLoop_eq_find? (ops : ImgOps α) (img : Img α) (maxKB : Nat) :
    ∀ scs : List Dy,
      scaleLoop ops img maxKB scs =
        (scs.find? (fun sc =>
            fitsBudget (ops.jpegSize (scaledImg ops img sc) 30) maxKB)).map
          (fun sc => OptOut.jpeg (scaledImg ops img sc) 30) := by
  intro scs
  induction scs with
  | nil => rfl
  | cons sc rest ih =>
    cases hfit : fitsBudget (ops.jpegSize (scaledImg ops img sc) 30) maxKB <;>
      simp [scaleLoop, List.find?, hfit, ih]

/-- C2: on every decodable input, `optimize_image` flattens, caps the
dimensions, and then performs exactly the declarative first-fit search of
the specification: JPEG at qualities 85, 75, 65, 55, 45, 35 in order,
returning the first at or under the byte budget; failing that, rescale by
0.8, 0.6, 0.4 at quality 30, returning the first within budget; failing
that, the quality-20 encode is returned unconditionally — so for decodable
input the function always returns JPEG bytes and never fails on the size
budget alone. -/
theorem claim2_optimize_search (ops : ImgOps α) (img0 : Img α) (maxKB : Nat) :
    optimize_image ops (some img0) maxKB =
      specSearch ops (capDimensions ops (convertRGB ops img0)) maxKB ∧
    ∃ i q, optimize_image ops (some img0) maxKB = OptOut.jpeg i q := by
  have hmain : optimize_image ops (some img0) maxKB =
      specSearch ops (capDimensions ops (convertRGB ops img0)) maxKB := by
    cases hq : qualitySeq.find?
        (fun q => fitsBudget
          (ops.jpegSize (capDimensions ops (convertRGB ops img0)) q) maxKB) with
    | some q =>
      simp [optimize_image, specSearch, specAttempts, qualityLoop_eq_find?,
        scaleLoop_eq_find?, List.find?_append, List.find?_map,
        Function.comp_def, hq, Option.or]
    | none =>
      cases hs : scaleFactors.find?
          (fun sc => fitsBudget
            (ops.jpegSize
              (scaledImg ops (capDimensions ops (convertRGB ops img0)) sc) 30)
            maxKB) with
      | some sc =>
        simp [optimize_image, specSearch, specAttempts, qualityLoop_eq_find?,
          scaleLoop_eq_find?, List.find?_append, List.find?_map,
          Function.comp_def, hq, hs, Option.or]
      | none =>
        simp [optimize_image, specSearch, specAttempts, qualityLoop_eq_find?,
          scaleLoop_eq_find?, List.find?_append, List.find?_map,
          Function.comp_def, hq, hs, Option.or]
  refine ⟨hmain, ?_⟩
  rw [hmain]
  unfold specSearch
  cases hfind : (specAttempts ops (capDimensions ops (convertRGB ops img0))).find?
      (fun a => fitsBudget
        (ops.jpegSize a.1 a.2) maxKB) with
  | some a => exact ⟨a.1, a.2, by simp [hfind]⟩
  | none =>
    exact ⟨capDimensions ops (convertRGB ops img0), 20, by simp [hfind]⟩

/-- C3 counterexample: on input that does not decode, `optimize_image`
completes normally and hands back the original file object — it returns
bytes for unparseable input instead of failing the upload with a
`DecodeError`. -/
theorem claim3_counterexample :
    optimize_image unitOps (none : Option (Img Unit)) 500 = OptOut.original :=
  rfl

/-- C3 (amended): for input that does not decode, the `except` handler of
`optimize_image` swallows the error, rewinds the file and returns the
original input bytes unchanged; no `DecodeError` reaches the caller and the
upload proceeds with those bytes rather than being rejected. -/
theorem claim3_decode_fallback {α : Type} (ops : ImgOps α) (maxKB : Nat) :
    optimize_image ops (none : Option (Img α)) maxKB = OptOut.original :=
  rfl

/-- C6 counterexample: a failing `save_image_data` call is observationally
identical to a successful one — same `None` return, no exception — so the
failure is not reported to the caller (only the persisted state differs,
which the caller cannot see). -/
theorem claim6_counterexample :
    (save_image_data storeScenario true).ret =
      (save_image_data storeScenario false).ret ∧
    (save_image_data storeScenario true).raised = false ∧
    (save_image_data storeScenario true).persisted = none := by
  decide

/-- C6 (amended): `save_image_data` never crashes the process — the
`except` handler catches every write failure — but it does not report the
failure to the caller either: it raises nothing and returns `None`
regardless of the outcome, so in particular the sweeper cannot observe a
failed persist of the updated mapping. -/
theorem claim6_save_silent (data : Store) (writeFails : Bool) :
    (save_image_data data writeFails).raised = false ∧
    (save_image_data data writeFails).ret = none := by
  cases writeFails <;> simp [save_image_data]

/-- the byte length of the all-`a` payload. -/
theorem longUrl_utf8ByteSize : longUrl.utf8ByteSize = 2332 := by
  show String.utf8ByteSize.go (List.replicate 2332 'a') = 2332
  have h : ∀ n : Nat, String.utf8ByteSize.go (List.replicate n 'a') = n := by
    intro n
    induction n with
    | zero => rfl
    | succ k ih =>
      show String.utf8ByteSize.go ('a' :: List.replicate k 'a') = k + 1
      show String.utf8ByteSize.go (List.replicate k 'a') + 'a'.utf8Size = k + 1
      rw [ih]
      rfl
  exact h 2332

/-- C8 counterexample: a payload one byte past the version-40 level-M
capacity makes `create_qr_code` return normally with `None` — the
library's overflow error is caught inside the function, so no
`EncodingError` (nor any exception) reaches the caller. -/
theorem claim8_counterexample :
    QR_CAPACITY_BYTES_M < longUrl.utf8ByteSize ∧
    create_qr_code longUrl = PyResult.ok none ∧
    create_qr_code longUrl ≠ PyResult.exn "EncodingError" := by
  have heq : create_qr_code longUrl = PyResult.ok none := by
    unfold create_qr_code qrMakeFit
    rw [if_neg (by rw [longUrl_utf8ByteSize]; decide)]
  refine ⟨by rw [longUrl_utf8ByteSize]; decide, heq, by simp [heq]⟩

/-- C8 (amended): for every byte-mode payload longer than the maximum QR
capacity, `create_qr_code` catches the library's `DataOverflowError` and
returns `None`: nothing is raised, and no QR image — truncated or
otherwise — is ever produced; the upload handler answers with an error
(no success response) whenever the QR step yields `None`. -/
theorem claim8_overflow_returns_none (url : String) (data : Store)
    (fs : FileSys) (now : Nat) (nowIso image_id original view_url : String)
    (imgSize : Nat) (h : QR_CAPACITY_BYTES_M < url.utf8ByteSize) :
    create_qr_code url = PyResult.ok none ∧
    (upload_image data fs now nowIso image_id original view_url imgSize
        false).ok = false := by
  constructor
  · unfold create_qr_code qrMakeFit
    rw [if_neg (by omega)]
  · rfl

/-- witness for the amended C8 at the concrete over-capacity payload. -/
theorem claim8_overflow_returns_none_witness :
    QR_CAPACITY_BYTES_M < longUrl.utf8ByteSize ∧
    (create_qr_code longUrl = PyResult.ok none ∧
      (upload_image [] [] 0 "t" "id0" "o.png" "u" 7 false).ok = false) :=
  ⟨by rw [longUrl_utf8ByteSize]; decide,
    claim8_overflow_returns_none longUrl [] [] 0 "t" "id0" "o.png" "u" 7
      (by rw [longUrl_utf8ByteSize]; decide)⟩

/-- C7 counterexample: a 2148×1000 image exceeds the cap, yet binary64
rounding in `int(2148 * (1920 / 2148))` yields 1919, so the larger output
dimension is not 1920 as the claim requires. -/
theorem claim7_counterexample :
    (2148 : Nat) > 1920 ∧
    (capDimensions unitOps ⟨2148, 1000, "RGB", ()⟩).width = 1919 ∧
    (capDimensions unitOps ⟨2148, 1000, "RGB", ()⟩).height = 893 ∧
    max (capDimensions unitOps ⟨2148, 1000, "RGB", ()⟩).width
      (capDimensions unitOps ⟨2148, 1000, "RGB", ()⟩).height ≠ 1920 := by
  set_option maxRecDepth 8000 in decide

/-! Bounds on the binary64 model, used for the dimension-cap claim. -/

/-- the fuel-bounded logarithm never overshoots. -/
theorem log2fuel_le : ∀ (f n : Nat), 1 ≤ n → 2 ^ log2fuel f n ≤ n := by
  intro f
  induction f with
  | zero =>
    intro n h
    simpa [log2fuel] using h
  | succ f ih =>
    intro n h
    by_cases hn : n ≤ 1
    · have h0 : log2fuel (f + 1) n = 0 := by simp [log2fuel, hn]
      rw [h0]
      simpa using h
    · have h2 : 1 ≤ n / 2 := by omega
      have hle := ih (n / 2) h2
      have hstep : log2fuel (f + 1) n = log2fuel f (n / 2) + 1 := by
        simp [log2fuel, hn]
      rw [hstep, pow_succ]
      omega

/-- round-to-nearest overshoots its input by at most one half. -/
theorem rndNE_le (N D : Nat) (hD : 1 ≤ D) :
    ((rndNearestEven N D : Nat) : ℚ) ≤ (N : ℚ) / D + 1 / 2 := by
  have hD0 : (0 : ℚ) < (D : ℚ) := by exact_mod_cast hD
  have hcast : ((N / D : Nat) : ℚ) * D + ((N % D : Nat) : ℚ) = N := by
    exact_mod_cast Nat.div_add_mod' N D
  have hx : (N : ℚ) / D = ((N / D : Nat) : ℚ) + ((N % D : Nat) : ℚ) / D := by
    rw [← hcast]
    field_simp
  have hrD : (0 : ℚ) ≤ ((N % D : Nat) : ℚ) / D := by positivity
  simp only [rndNearestEven]
  by_cases h1 : 2 * (N % D) < D
  · rw [if_pos h1, hx]
    linarith
  · have hge : (D : ℚ) ≤ 2 * ((N % D : Nat) : ℚ) := by
      exact_mod_cast Nat.not_lt.mp h1
    have hhalf : (1 : ℚ) / 2 ≤ ((N % D : Nat) : ℚ) / D := by
      rw [div_le_div_iff (by norm_num) hD0]
      linarith
    rw [if_neg h1]
    by_cases h2 : D < 2 * (N % D)
    · rw [if_pos h2, hx]
      push_cast
      linarith
    · rw [if_neg h2]
      by_cases h3 : N / D % 2 = 0
      · rw [if_pos h3, hx]
        linarith
      · rw [if_neg h3, hx]
        push_cast
        linarith

set_option maxRecDepth 4000 in
/-- the rounded dyadic overshoots the exact quotient by at most half an
ulp at the located binade. -/
theorem dyVal_flRat_le (N D : Nat) (hD : 1 ≤ D) :
    dyVal (flRat N D) ≤
      (N : ℚ) / D + (2 : ℚ) ^ log2fuel 400 (N * 2 ^ 200 / D) / 2 ^ 253 := by
  have hD0 : (0 : ℚ) < (D : ℚ) := by exact_mod_cast hD
  by_cases hN : N = 0
  · subst hN
    have h0 : flRat 0 D = ⟨0, 0⟩ := by simp [flRat]
    rw [h0]
    unfold dyVal
    simp
    positivity
  · have hcond : ¬(N = 0 ∨ D = 0) := by omega
    by_cases htle : log2fuel 400 (N * 2 ^ 200 / D) ≤ 252
    · set t := log2fuel 400 (N * 2 ^ 200 / D) with ht
      have hfl : flRat N D = ⟨rndNearestEven (N * 2 ^ (252 - t)) D, 252 - t⟩ := by
        rw [flRat, if_neg hcond]
        simp only [← ht, if_pos htle]
      rw [hfl]
      unfold dyVal
      have hpow : (0 : ℚ) < (2 : ℚ) ^ (252 - t) := by positivity
      rw [div_le_iff hpow]
      have hb := rndNE_le (N * 2 ^ (252 - t)) D hD
      have hNc : ((N * 2 ^ (252 - t) : Nat) : ℚ) = (N : ℚ) * 2 ^ (252 - t) := by
        push_cast
        ring
      rw [hNc] at hb
      have hexp : (2 : ℚ) ^ t * 2 ^ (252 - t) = 2 ^ 252 := by
        rw [← pow_add]
        congr 1
        omega
      have hhalf : (2 : ℚ) ^ t / 2 ^ 253 * 2 ^ (252 - t) = 1 / 2 := by
        have h253 : ((2 : ℚ) ^ 253 : ℚ) ≠ 0 := by positivity
        rw [div_mul_eq_mul_div, hexp]
        rw [show ((2 : ℚ) ^ 253) = 2 ^ 252 * 2 from by rw [← pow_succ]]
        have h252 : ((2 : ℚ) ^ 252 : ℚ) ≠ 0 := by positivity
        field_simp
      have hrhs : ((N : ℚ) / D + (2 : ℚ) ^ t / 2 ^ 253) * 2 ^ (252 - t) =
          (N : ℚ) * 2 ^ (252 - t) / D + 1 / 2 := by
        calc ((N : ℚ) / D + (2 : ℚ) ^ t / 2 ^ 253) * 2 ^ (252 - t) =
            (N : ℚ) * 2 ^ (252 - t) / D +
              (2 : ℚ) ^ t / 2 ^ 253 * 2 ^ (252 - t) := by ring
          _ = (N : ℚ) * 2 ^ (252 - t) / D + 1 / 2 := by rw [hhalf]
      rw [hrhs]
      exact hb
    · set t := log2fuel 400 (N * 2 ^ 200 / D) with ht
      have hfl : flRat N D =
          ⟨rndNearestEven N (D * 2 ^ (t - 252)) * 2 ^ (t - 252), 0⟩ := by
        rw [flRat, if_neg hcond]
        simp only [← ht, if_neg htle]
      rw [hfl]
      unfold dyVal
      have hD2 : 1 ≤ D * 2 ^ (t - 252) := Nat.one_le_iff_ne_zero.mpr (by positivity)
      have hb := rndNE_le N (D * 2 ^ (t - 252)) hD2
      have hDc : ((D * 2 ^ (t - 252) : Nat) : ℚ) = (D : ℚ) * 2 ^ (t - 252) := by
        push_cast
        ring
      rw [hDc] at hb
      have hp0 : (0 : ℚ) < (2 : ℚ) ^ (t - 252) := by positivity
      have hB : (N : ℚ) / ((D : ℚ) * 2 ^ (t - 252)) * 2 ^ (t - 252) =
          (N : ℚ) / D := by
        field_simp
        ring
      have hA : (2 : ℚ) ^ (t - 252) / 2 = (2 : ℚ) ^ t / 2 ^ 253 := by
        rw [div_eq_div_iff (two_ne_zero) (pow_ne_zero 253 two_ne_zero)]
        rw [← pow_add, ← pow_succ]
        congr 1
        omega
      have hval : ((rndNearestEven N (D * 2 ^ (t - 252)) * 2 ^ (t - 252) : Nat) : ℚ) =
          ((rndNearestEven N (D * 2 ^ (t - 252)) : Nat) : ℚ) * 2 ^ (t - 252) := by
        push_cast
        ring
      rw [hval]
      have hchain : ((rndNearestEven N (D * 2 ^ (t - 252)) : Nat) : ℚ) *
          2 ^ (t - 252) ≤
            ((N : ℚ) / ((D : ℚ) * 2 ^ (t - 252)) + 1 / 2) * 2 ^ (t - 252) :=
        mul_le_mul_of_nonneg_right hb hp0.le
      calc ((rndNearestEven N (D * 2 ^ (t - 252)) : Nat) : ℚ) * 2 ^ (t - 252) / 2 ^ 0 =
          ((rndNearestEven N (D * 2 ^ (t - 252)) : Nat) : ℚ) * 2 ^ (t - 252) := by
            norm_num
        _ ≤ ((N : ℚ) / ((D : ℚ) * 2 ^ (t - 252)) + 1 / 2) * 2 ^ (t - 252) := hchain
        _ = (N : ℚ) / ((D : ℚ) * 2 ^ (t - 252)) * 2 ^ (t - 252) +
            2 ^ (t - 252) / 2 := by ring
        _ = (N : ℚ) / D + (2 : ℚ) ^ t / 2 ^ 253 := by rw [hB, hA]

/-- relative error bound of the rounding: at most one part in `2^53`
above the exact quotient, whenever the scaled quotient is at least one. -/
theorem dyVal_flRat_rel (N D : Nat) (hD : 1 ≤ D) (hs : D ≤ N * 2 ^ 200) :
    dyVal (flRat N D) ≤ (N : ℚ) / D * (1 + 1 / 2 ^ 53) := by
  have hD0 : (0 : ℚ) < (D : ℚ) := by exact_mod_cast hD
  have habs := dyVal_flRat_le N D hD
  have hy1 : 1 ≤ N * 2 ^ 200 / D := (Nat.one_le_div_iff (by omega)).mpr hs
  have hlow : 2 ^ log2fuel 400 (N * 2 ^ 200 / D) ≤ N * 2 ^ 200 / D :=
    log2fuel_le 400 _ hy1
  have hlowQ : (2 : ℚ) ^ log2fuel 400 (N * 2 ^ 200 / D) ≤
      (N : ℚ) * 2 ^ 200 / D := by
    have h1 : ((N * 2 ^ 200 / D : Nat) : ℚ) ≤ (N : ℚ) * 2 ^ 200 / D := by
      rw [le_div_iff hD0]
      exact_mod_cast Nat.div_mul_le_self (N * 2 ^ 200) D
    calc (2 : ℚ) ^ log2fuel 400 (N * 2 ^ 200 / D) =
        ((2 ^ log2fuel 400 (N * 2 ^ 200 / D) : Nat) : ℚ) := by push_cast; ring
      _ ≤ ((N * 2 ^ 200 / D : Nat) : ℚ) := by exact_mod_cast hlow
      _ ≤ (N : ℚ) * 2 ^ 200 / D := h1
  have hfin : (2 : ℚ) ^ log2fuel 400 (N * 2 ^ 200 / D) / 2 ^ 253 ≤
      (N : ℚ) / D / 2 ^ 53 := by
    have hstep : (2 : ℚ) ^ log2fuel 400 (N * 2 ^ 200 / D) / 2 ^ 253 ≤
        ((N : ℚ) * 2 ^ 200 / D) / 2 ^ 253 := by gcongr
    have heq : ((N : ℚ) * 2 ^ 200 / D) / 2 ^ 253 = (N : ℚ) / D / 2 ^ 53 := by
      field_simp
      ring
    rw [heq] at hstep
    exact hstep
  have hexp : (N : ℚ) / D + (N : ℚ) / D / 2 ^ 53 =
      (N : ℚ) / D * (1 + 1 / 2 ^ 53) := by ring
  linarith

/-- absolute error bound of the rounding for below-range quotients. -/
theorem dyVal_flRat_small (N D : Nat) (hD : 1 ≤ D) (hs : N * 2 ^ 200 < D) :
    dyVal (flRat N D) ≤ (N : ℚ) / D + 1 / 2 ^ 253 := by
  have habs := dyVal_flRat_le N D hD
  have h0 : N * 2 ^ 200 / D = 0 := Nat.div_eq_of_lt hs
  rw [h0] at habs
  have hlog : log2fuel 400 0 = 0 := rfl
  rw [hlog] at habs
  simpa using habs

/-- the float `min` is below its left argument. -/
theorem minDy_le_left (a b : Dy) : dyVal (minDy a b) ≤ dyVal a := by
  unfold minDy
  by_cases hc : a.m * 2 ^ b.k ≤ b.m * 2 ^ a.k
  · rw [if_pos hc]
  · rw [if_neg hc]
    unfold dyVal
    rw [div_le_div_iff (by positivity) (by positivity)]
    exact_mod_cast (Nat.not_le.mp hc).le

/-- the float `min` is below its right argument. -/
theorem minDy_le_right (a b : Dy) : dyVal (minDy a b) ≤ dyVal b := by
  unfold minDy
  by_cases hc : a.m * 2 ^ b.k ≤ b.m * 2 ^ a.k
  · rw [if_pos hc]
    unfold dyVal
    rw [div_le_div_iff (by positivity) (by positivity)]
    exact_mod_cast hc
  · rw [if_neg hc]

/-- truncation stays under any integer bound strictly above the value. -/
theorem truncDy_le (a : Dy) (c : Nat) (h : dyVal a < (c : ℚ) + 1) :
    truncDy a ≤ c := by
  unfold truncDy
  have hpow : (0 : ℚ) < (2 : ℚ) ^ a.k := by positivity
  have hm : (a.m : ℚ) < ((c : ℚ) + 1) * 2 ^ a.k := by
    unfold dyVal at h
    rwa [div_lt_iff hpow] at h
  have hmN : a.m < (c + 1) * 2 ^ a.k := by exact_mod_cast hm
  have hdiv := (Nat.div_lt_iff_lt_mul (Nat.pos_pow_of_pos a.k (by norm_num))).mpr hmN
  omega

/-- the truncated product of a dimension with a ratio at most
`(1920 / dim)·(1 + 2⁻⁵³)` never exceeds 1920. -/
theorem truncMul_le (w : Nat) (r : Dy)
    (hr : (w : ℚ) * dyVal r ≤ 1920 * (1 + 1 / 2 ^ 53)) :
    truncDy (pyMulNatDy w r) ≤ 1920 := by
  unfold pyMulNatDy
  have h2k : 1 ≤ 2 ^ r.k := Nat.one_le_two_pow
  have hxx : ((w * r.m : Nat) : ℚ) / ((2 ^ r.k : Nat) : ℚ) =
      (w : ℚ) * dyVal r := by
    unfold dyVal
    push_cast
    ring
  have hnn : (0 : ℚ) ≤ (w : ℚ) * dyVal r := by
    have h0 : (0 : ℚ) ≤ dyVal r := by
      unfold dyVal
      positivity
    positivity
  apply truncDy_le
  by_cases hcase : 2 ^ r.k ≤ w * r.m * 2 ^ 200
  · have hrel := dyVal_flRat_rel (w * r.m) (2 ^ r.k) h2k hcase
    rw [hxx] at hrel
    have hfin : (w : ℚ) * dyVal r * (1 + 1 / 2 ^ 53) ≤
        1920 * (1 + 1 / 2 ^ 53) * (1 + 1 / 2 ^ 53) :=
      mul_le_mul_of_nonneg_right hr (by norm_num)
    have hnum : (1920 : ℚ) * (1 + 1 / 2 ^ 53) * (1 + 1 / 2 ^ 53) < 1921 := by
      norm_num
    push_cast
    linarith
  · have hsmall := dyVal_flRat_small (w * r.m) (2 ^ r.k) h2k (Nat.not_le.mp hcase)
    rw [hxx] at hsmall
    have hnum : (1920 : ℚ) * (1 + 1 / 2 ^ 53) + 1 / 2 ^ 253 < 1921 := by
      norm_num
    push_cast
    linarith

/-- C7 (amended): for a decodable image with a side beyond 1920 (and
physically sized, at most `2^32` pixels a side), the cap step computes
`min(1920/w, 1920/h)` and the truncated products in binary64; both output
dimensions are then at most 1920 — but the larger one is not always
exactly 1920: the 5000×4000 example gives exactly 1920×1536, while
2148×1000 gives 1919×893 (see the counterexample). -/
theorem claim7_cap_bounds {α : Type} (ops : ImgOps α) (w h : Nat)
    (mo : String) (dat : α) (hw : 1 ≤ w) (hh : 1 ≤ h)
    (hwB : w ≤ 2 ^ 32) (hhB : h ≤ 2 ^ 32)
    (hbig : 1920 < w ∨ 1920 < h) :
    (capDimensions ops ⟨w, h, mo, dat⟩).width ≤ 1920 ∧
    (capDimensions ops ⟨w, h, mo, dat⟩).height ≤ 1920 := by
  have hw0 : (0 : ℚ) < (w : ℚ) := by exact_mod_cast hw
  have hh0 : (0 : ℚ) < (h : ℚ) := by exact_mod_cast hh
  have hcond : ((⟨w, h, mo, dat⟩ : Img α).width > 1920 ||
      (⟨w, h, mo, dat⟩ : Img α).height > 1920) = true := by
    rcases hbig with hb | hb <;> simp [hb]
  have hscale : ∀ d : Nat, d ≤ 2 ^ 32 → d ≤ 1920 * 2 ^ 200 := by
    intro d hd
    calc d ≤ 2 ^ 32 := hd
      _ ≤ 2 ^ 200 := Nat.pow_le_pow_right (by norm_num) (by norm_num)
      _ ≤ 1920 * 2 ^ 200 := Nat.le_mul_of_pos_left _ (by norm_num)
  have hrw : dyVal (pyDivNat 1920 w) ≤ (1920 : ℚ) / w * (1 + 1 / 2 ^ 53) :=
    dyVal_flRat_rel 1920 w hw (hscale w hwB)
  have hrh : dyVal (pyDivNat 1920 h) ≤ (1920 : ℚ) / h * (1 + 1 / 2 ^ 53) :=
    dyVal_flRat_rel 1920 h hh (hscale h hhB)
  unfold capDimensions
  rw [if_pos hcond]
  constructor
  · apply truncMul_le
    have h1 : dyVal (minDy (pyDivNat 1920 w) (pyDivNat 1920 h)) ≤
        (1920 : ℚ) / w * (1 + 1 / 2 ^ 53) :=
      (minDy_le_left _ _).trans hrw
    calc (w : ℚ) * dyVal (minDy (pyDivNat 1920 w) (pyDivNat 1920 h)) ≤
        (w : ℚ) * ((1920 : ℚ) / w * (1 + 1 / 2 ^ 53)) :=
          mul_le_mul_of_nonneg_left h1 hw0.le
      _ = 1920 * (1 + 1 / 2 ^ 53) := by
          field_simp
          ring
  · apply truncMul_le
    have h1 : dyVal (minDy (pyDivNat 1920 w) (pyDivNat 1920 h)) ≤
        (1920 : ℚ) / h * (1 + 1 / 2 ^ 53) :=
      (minDy_le_right _ _).trans hrh
    calc (h : ℚ) * dyVal (minDy (pyDivNat 1920 w) (pyDivNat 1920 h)) ≤
        (h : ℚ) * ((1920 : ℚ) / h * (1 + 1 / 2 ^ 53)) :=
          mul_le_mul_of_nonneg_left h1 hh0.le
      _ = 1920 * (1 + 1 / 2 ^ 53) := by
          field_simp
          ring

/-- witness for the amended C7: the specification's 5000×4000 example is
capped to exactly 1920×1536, within the proved bounds. -/
theorem claim7_cap_bounds_witness :
    ((1 : Nat) ≤ 5000 ∧ (1 : Nat) ≤ 4000 ∧ 5000 ≤ 2 ^ 32 ∧ 4000 ≤ 2 ^ 32 ∧
      ((1920 : Nat) < 5000 ∨ (1920 : Nat) < 4000)) ∧
    ((capDimensions unitOps ⟨5000, 4000, "RGB", ()⟩).width ≤ 1920 ∧
      (capDimensions unitOps ⟨5000, 4000, "RGB", ()⟩).height ≤ 1920) ∧
    (capDimensions unitOps ⟨5000, 4000, "RGB", ()⟩).width = 1920 ∧
    (capDimensions unitOps ⟨5000, 4000, "RGB", ()⟩).height = 1536 := by
  refine ⟨⟨by norm_num, by norm_num, by norm_num, by norm_num,
      Or.inl (by norm_num)⟩,
    claim7_cap_bounds unitOps 5000 4000 "RGB" () (by norm_num) (by norm_num)
      (by norm_num) (by norm_num) (Or.inl (by norm_num)), ?_, ?_⟩
  · set_option maxRecDepth 8000 in decide
  · set_option maxRecDepth 8000 in decide

end QrPlatform
